import Mathlib

/-!
Verification of the hdl_registers register-map data model.

The definitions below are a shallow embedding of the Python source:
`src/hdl_registers/register_array.py` and `src/hdl_registers/enum.py`.
Parts of the repository that are referenced but whose source files are not
available (`register.py`, `bit_vector.py`, `register_field_type.py`) are
modelled from the specification, as indicated in their doc comments.
Python exceptions are modelled with `Except String`; stateful methods that
may raise are modelled as functions returning the post-state together with
the `Except` result, mirroring the exact order of mutation and raise in
the source.
-/

/-- Modelled from the spec: `register.py` is not in src.  Per the spec data
model a Register is constructed as Register(name, index, mode, description)
and stores those four attributes.  Fields are not needed by the claims. -/
structure Register where
  name : String
  index : Nat
  mode : String
  description : String
deriving DecidableEq

/-- Embeds class RegisterArray of src/hdl_registers/register_array.py:
attributes name, base_index, length, description, atomic, registers. -/
structure RegisterArray where
  name : String
  base_index : Int
  length : Int
  description : String
  atomic : Option String
  registers : List Register
deriving DecidableEq

/-- Python truthiness of an Optional[str] value: None and the empty string
are falsy, any other string is truthy. -/
def pyTruthy : Option String → Bool
  | none => false
  | some s => !(s == "")

/-- Embeds RegisterArray.__init__: validates that atomic is None, "row" or
"all" (raising ValueError otherwise) and starts with an empty register
list. -/
def RegisterArray.init (name : String) (base_index length : Int)
    (description : String) (atomic : Option String) :
    Except String RegisterArray :=
  if atomic = none ∨ atomic = some "row" ∨ atomic = some "all" then
    Except.ok ⟨name, base_index, length, description, atomic, []⟩
  else
    Except.error "atomic must be None or row or all"

/-- Embeds RegisterArray.append_register.  The Python method raises
ValueError (before any mutation) when the array already has registers,
atomic is truthy, and the new mode differs from the first register's mode;
otherwise it appends Register(name, len(registers), mode, description).
The result is the post-state paired with the raised error or the returned
register. -/
def append_register (a : RegisterArray) (name mode description : String) :
    RegisterArray × Except String Register :=
  if !a.registers.isEmpty && pyTruthy a.atomic
      && mode != (a.registers.headD ⟨"", 0, "", ""⟩).mode then
    (a, Except.error "Cannot append register with mode: mode conflict")
  else
    let index := a.registers.length
    let register : Register := ⟨name, index, mode, description⟩
    ({a with registers := a.registers ++ [register]}, Except.ok register)

/-- Embeds RegisterArray.get_register: linear scan for the first register
with the requested name, ValueError when none matches. -/
def get_register (a : RegisterArray) (name : String) :
    Except String Register :=
  match a.registers.find? (fun r => r.name == name) with
  | some r => Except.ok r
  | none => Except.error "Could not find register within register array"

/-- Embeds the RegisterArray.index property:
base_index + length * len(registers) - 1. -/
def RegisterArray.index (a : RegisterArray) : Int :=
  a.base_index + a.length * a.registers.length - 1

/-- Embeds RegisterArray.get_start_index: raises ValueError when
array_index >= length, otherwise returns
base_index + array_index * len(registers). -/
def get_start_index (a : RegisterArray) (array_index : Int) :
    Except String Int :=
  if a.length ≤ array_index then
    Except.error "Index out of range for register array"
  else
    Except.ok (a.base_index + array_index * a.registers.length)

/-- The register arrays actually constructible by the program: produced by
RegisterArray.__init__ and grown only by successful append_register
calls. -/
inductive Reachable : RegisterArray → Prop where
  | init (name : String) (base_index length : Int) (description : String)
      (atomic : Option String) (a : RegisterArray) :
      RegisterArray.init name base_index length description atomic
        = Except.ok a → Reachable a
  | step (a a' : RegisterArray) (name mode description : String)
      (r : Register) : Reachable a →
      append_register a name mode description = (a', Except.ok r) →
      Reachable a'

/-- A concrete register array: length 3, base index 10, two registers, as
in the spec's concrete scenario 2. -/
def scen2Array : RegisterArray :=
  ⟨"apa", 10, 3, "d", some "row",
   [⟨"hest", 0, "r", "d"⟩, ⟨"zebra", 1, "r", "d"⟩]⟩

/-- C1: for 0 <= array_index < length, get_start_index returns
base_index + array_index * len(registers); in the length-3, two-register
scenario, repetition 0 starts at base_index and repetition 2 at
base_index + 4. -/
theorem C1_get_start_index_formula :
    (∀ (a : RegisterArray) (i : Int), 0 ≤ i → i < a.length →
      get_start_index a i
        = Except.ok (a.base_index + i * a.registers.length))
    ∧ (∀ base : Int,
        get_start_index { scen2Array with base_index := base } 0
          = Except.ok base
        ∧ get_start_index { scen2Array with base_index := base } 2
          = Except.ok (base + 4)) := by
  constructor
  · intro a i _ hlt
    simp only [get_start_index, if_neg (not_le.mpr hlt)]
  · intro base
    constructor
    · simp [get_start_index, scen2Array]
    · simp only [get_start_index, scen2Array]
      norm_num

/-- Witness for C1 at a concrete array and index. -/
theorem C1_witness :
    (0 : Int) ≤ 2 ∧ (2 : Int) < scen2Array.length ∧
    get_start_index scen2Array 2
      = Except.ok (scen2Array.base_index
          + 2 * scen2Array.registers.length) :=
  ⟨by decide, by decide,
   C1_get_start_index_formula.1 scen2Array 2 (by decide) (by decide)⟩

/-- C4: the index property equals base_index + length * len(registers) - 1,
and when the array is non-empty and length >= 1 this is exactly the
address of the last register of the last repetition,
base_index + (length-1) * len(registers) + (len(registers) - 1). -/
theorem C4_index_property :
    (∀ a : RegisterArray,
      RegisterArray.index a
        = a.base_index + a.length * a.registers.length - 1)
    ∧ (∀ (a : RegisterArray) (r0 : Register) (rest : List Register),
        a.registers = r0 :: rest → 1 ≤ a.length →
        RegisterArray.index a
          = a.base_index + (a.length - 1) * a.registers.length
            + ((a.registers.length : Int) - 1)) := by
  constructor
  · intro a
    rfl
  · intro a r0 rest _ _
    simp only [RegisterArray.index]
    ring

/-- Witness for C4 at a concrete array. -/
theorem C4_witness :
    scen2Array.registers = ⟨"hest", 0, "r", "d"⟩ :: [⟨"zebra", 1, "r", "d"⟩]
    ∧ (1 : Int) ≤ scen2Array.length
    ∧ RegisterArray.index scen2Array
        = scen2Array.base_index
          + (scen2Array.length - 1) * scen2Array.registers.length
          + ((scen2Array.registers.length : Int) - 1) :=
  ⟨by decide, by decide,
   C4_index_property.2 scen2Array ⟨"hest", 0, "r", "d"⟩
     [⟨"zebra", 1, "r", "d"⟩] (by decide) (by decide)⟩

/-- C2: on an array with atomicity row or all that already holds a
register, appending with a different mode fails; appending with the same
mode as the first register, or on an array with atomicity none, always
succeeds. -/
theorem C2_mode_conflict :
    (∀ (a : RegisterArray) (n m d : String) (r0 : Register)
        (rest : List Register), a.registers = r0 :: rest →
      (a.atomic = some "row" ∨ a.atomic = some "all") → m ≠ r0.mode →
      ∃ e, (append_register a n m d).2 = Except.error e)
    ∧ (∀ (a : RegisterArray) (n m d : String) (r0 : Register)
        (rest : List Register), a.registers = r0 :: rest → m = r0.mode →
      ∃ r, (append_register a n m d).2 = Except.ok r)
    ∧ (∀ (a : RegisterArray) (n m d : String), a.atomic = none →
      ∃ r, (append_register a n m d).2 = Except.ok r) := by
  refine ⟨?_, ?_, ?_⟩
  · intro a n m d r0 rest hreg hat hne
    refine ⟨"Cannot append register with mode: mode conflict", ?_⟩
    have htruthy : pyTruthy a.atomic = true := by
      rcases hat with h | h <;> simp [h, pyTruthy]
    simp [append_register, hreg, htruthy, hne]
  · intro a n m d r0 rest hreg heq
    refine ⟨⟨n, a.registers.length, m, d⟩, ?_⟩
    simp [append_register, hreg, heq]
  · intro a n m d hat
    refine ⟨⟨n, a.registers.length, m, d⟩, ?_⟩
    simp [append_register, hat, pyTruthy]

/-- Witness for C2: a mode conflict on a concrete row-atomic array. -/
theorem C2_witness :
    scen2Array.registers = ⟨"hest", 0, "r", "d"⟩ :: [⟨"zebra", 1, "r", "d"⟩]
    ∧ (scen2Array.atomic = some "row" ∨ scen2Array.atomic = some "all")
    ∧ "w" ≠ (Register.mk "hest" 0 "r" "d").mode
    ∧ ∃ e, (append_register scen2Array "giraff" "w" "d").2
        = Except.error e :=
  ⟨by decide, by decide, by decide,
   C2_mode_conflict.1 scen2Array "giraff" "w" "d" ⟨"hest", 0, "r", "d"⟩
     [⟨"zebra", 1, "r", "d"⟩] (by decide) (by decide) (by decide)⟩

/-- A concrete non-atomic array with one register, used to exhibit the
behaviour of get_start_index on a negative index and of append_register on
a duplicate name. -/
def dupArray : RegisterArray :=
  ⟨"apa", 10, 3, "d", none, [⟨"hest", 0, "r", "d"⟩]⟩

/-- Counterexample for C3: get_start_index does not fail on a negative
index; at array_index = -1 on a length-3 array with one register and base
index 10 it returns 9 instead of raising. -/
theorem C3_counterexample :
    get_start_index dupArray (-1) = Except.ok 9 := by
  rfl

/-- C3 amended: get_start_index fails exactly for array_index >= length;
every array_index < length, including every negative one, is accepted and
yields base_index + array_index * len(registers). -/
theorem C3_range_check :
    ∀ (a : RegisterArray) (i : Int),
      (a.length ≤ i → ∃ e, get_start_index a i = Except.error e)
      ∧ (i < a.length →
          get_start_index a i
            = Except.ok (a.base_index + i * a.registers.length)) := by
  intro a i
  constructor
  · intro hle
    exact ⟨"Index out of range for register array",
      by simp [get_start_index, hle]⟩
  · intro hlt
    simp only [get_start_index, if_neg (not_le.mpr hlt)]

/-- Witness for C3 amended, at the out-of-range index 3 of the concrete
length-3 array. -/
theorem C3_witness :
    (scen2Array.length ≤ 3 →
      ∃ e, get_start_index scen2Array 3 = Except.error e)
    ∧ ((3 : Int) < scen2Array.length →
        get_start_index scen2Array 3
          = Except.ok (scen2Array.base_index
              + 3 * scen2Array.registers.length)) :=
  C3_range_check scen2Array 3

/-- Counterexample for C5: appending a register whose name duplicates an
existing register's name succeeds; no NameCollisionError is raised. -/
theorem C5_counterexample :
    (append_register dupArray "hest" "r" "d2").2
      = Except.ok ⟨"hest", 1, "r", "d2"⟩ := by
  rfl

/-- C5 amended: append_register performs no name-uniqueness check; on a
non-atomic array, appending a register whose name equals an existing
register's name succeeds, leaving two registers with the same name in the
array. -/
theorem C5_no_name_check :
    ∀ (a : RegisterArray) (n m d : String), a.atomic = none →
      (∃ r0 ∈ a.registers, r0.name = n) →
      (append_register a n m d).2
          = Except.ok ⟨n, a.registers.length, m, d⟩
      ∧ (append_register a n m d).1.registers
          = a.registers ++ [⟨n, a.registers.length, m, d⟩] := by
  intro a n m d hat _
  constructor <;> simp [append_register, hat, pyTruthy]

/-- Witness for C5 amended at the concrete one-register array. -/
theorem C5_witness :
    dupArray.atomic = none
    ∧ (∃ r0 ∈ dupArray.registers, r0.name = "hest")
    ∧ (append_register dupArray "hest" "r" "d2").2
        = Except.ok ⟨"hest", dupArray.registers.length, "r", "d2"⟩
    ∧ (append_register dupArray "hest" "r" "d2").1.registers
        = dupArray.registers
          ++ [⟨"hest", dupArray.registers.length, "r", "d2"⟩] := by
  refine ⟨by decide, ⟨⟨"hest", 0, "r", "d"⟩, by decide, by decide⟩, ?_⟩
  exact C5_no_name_check dupArray "hest" "r" "d2" (by decide)
    ⟨⟨"hest", 0, "r", "d"⟩, by decide, by decide⟩

/-- C9: append_register either raises with no side effect or appends one
register at the end: on error the post-state equals the pre-state, and on
success every attribute is unchanged except registers, which becomes the
old sequence with the new register appended. -/
theorem C9_append_atomic :
    ∀ (a : RegisterArray) (n m d : String),
      (∀ e, (append_register a n m d).2 = Except.error e →
        (append_register a n m d).1 = a)
      ∧ (∀ r, (append_register a n m d).2 = Except.ok r →
          (append_register a n m d).1.name = a.name
          ∧ (append_register a n m d).1.base_index = a.base_index
          ∧ (append_register a n m d).1.length = a.length
          ∧ (append_register a n m d).1.description = a.description
          ∧ (append_register a n m d).1.atomic = a.atomic
          ∧ (append_register a n m d).1.registers = a.registers ++ [r]) := by
  intro a n m d
  unfold append_register
  split
  · exact ⟨fun e _ => rfl, fun r hr => by simp at hr⟩
  · refine ⟨fun e he => by simp at he, fun r hr => ?_⟩
    simp only [Except.ok.injEq] at hr
    subst hr
    exact ⟨rfl, rfl, rfl, rfl, rfl, rfl⟩

/-- Witness for C9: a successful append on the concrete array. -/
theorem C9_witness :
    (append_register dupArray "zebra" "r" "d").2
      = Except.ok ⟨"zebra", 1, "r", "d"⟩
    ∧ (append_register dupArray "zebra" "r" "d").1.registers
      = dupArray.registers ++ [⟨"zebra", 1, "r", "d"⟩] :=
  ⟨by rfl,
   ((C9_append_atomic dupArray "zebra" "r" "d").2
     ⟨"zebra", 1, "r", "d"⟩ (by rfl)).2.2.2.2.2⟩

/-- A successful RegisterArray.__init__ starts with an empty register
list. -/
lemma init_ok_registers {n : String} {b l : Int} {d : String}
    {o : Option String} {a : RegisterArray}
    (h : RegisterArray.init n b l d o = Except.ok a) :
    a.registers = [] := by
  unfold RegisterArray.init at h
  split at h
  · injection h with h
    subst h
    rfl
  · cases h

/-- A successful append_register appends exactly
Register(name, len(registers), mode, description) at the end. -/
lemma append_ok_registers {a a' : RegisterArray} {n m d : String}
    {r : Register}
    (h : append_register a n m d = (a', Except.ok r)) :
    r = ⟨n, a.registers.length, m, d⟩
    ∧ a'.registers = a.registers ++ [r] := by
  unfold append_register at h
  split at h
  · simp only [Prod.mk.injEq] at h
    cases h.2
  · simp only [Prod.mk.injEq, Except.ok.injEq] at h
    obtain ⟨ha', hr⟩ := h
    subst ha'
    subst hr
    exact ⟨rfl, rfl⟩

/-- Invariant of constructible register arrays: the register stored at
position j of the registers list carries index j, i.e. its index equals
the number of registers that were appended before it. -/
lemma reachable_index_inv {a : RegisterArray} (h : Reachable a) :
    ∀ (j : Nat) (r : Register), a.registers[j]? = some r → r.index = j := by
  induction h with
  | init n b l d o a0 h0 =>
    intro j r hj
    rw [init_ok_registers h0] at hj
    simp at hj
  | step a0 a' n m d r0 _ happ ih =>
    intro j r hj
    obtain ⟨hr, hregs⟩ := append_ok_registers happ
    subst hr
    rw [hregs] at hj
    rcases Nat.lt_or_ge j a0.registers.length with hlt | hge
    · rw [List.getElem?_append_left hlt] at hj
      exact ih j r hj
    · have hlen : j < a0.registers.length + 1 := by
        obtain ⟨hb, -⟩ := List.getElem?_eq_some_iff.mp hj
        simpa using hb
      have hj' : j = a0.registers.length := by omega
      subst hj'
      rw [List.getElem?_concat_length] at hj
      injection hj with hj
      subst hj
      rfl

/-- C8: on a constructible array, a successful append_register(name, ...)
makes get_register(name) succeed with a register whose name is the
requested name and whose index equals the number of registers that were
appended to the array before it (its position in the registers list);
get_register for a name with no matching register fails. -/
theorem C8_get_register_after_append :
    (∀ (a : RegisterArray) (n m d : String) (a' : RegisterArray)
        (r : Register), Reachable a →
      append_register a n m d = (a', Except.ok r) →
      ∃ r', get_register a' n = Except.ok r' ∧ r'.name = n
        ∧ a'.registers[r'.index]? = some r')
    ∧ (∀ (a : RegisterArray) (n : String),
        (∀ r0 ∈ a.registers, r0.name ≠ n) →
        get_register a n
          = Except.error "Could not find register within register array") := by
  constructor
  · intro a n m d a' r hreach happ
    have hreach' : Reachable a' := Reachable.step a a' n m d r hreach happ
    obtain ⟨hr, hregs⟩ := append_ok_registers happ
    have hmem : r ∈ a'.registers := by
      rw [hregs]
      exact List.mem_append_right _ (List.mem_singleton.mpr rfl)
    have hname : (r.name == n) = true := by
      subst hr
      exact beq_self_eq_true n
    cases hf : a'.registers.find? (fun x => x.name == n) with
    | none =>
      exact absurd hname (by simpa using List.find?_eq_none.mp hf r hmem)
    | some r' =>
      refine ⟨r', ?_, ?_, ?_⟩
      · simp [get_register, hf]
      · have hp := List.find?_some hf
        simpa using hp
      · have hmem' : r' ∈ a'.registers := List.mem_of_find?_eq_some hf
        obtain ⟨j, hj⟩ := List.getElem?_of_mem hmem'
        have hidx : r'.index = j := reachable_index_inv hreach' j r' hj
        rw [hidx]
        exact hj
  · intro a n hn
    have hf : a.registers.find? (fun x => x.name == n) = none := by
      rw [List.find?_eq_none]
      intro x hx
      simpa using hn x hx
    simp [get_register, hf]

/-- The empty constructible array used by the C8 witness. -/
def c8Array0 : RegisterArray := ⟨"arr", 0, 3, "d", none, []⟩

/-- The C8 witness array after one successful append. -/
def c8Array1 : RegisterArray :=
  ⟨"arr", 0, 3, "d", none, [⟨"hest", 0, "r", "d"⟩]⟩

/-- Witness for C8: a concrete append on a constructible array followed by
the lookup. -/
theorem C8_witness :
    ∃ r', get_register c8Array1 "hest" = Except.ok r'
      ∧ r'.name = "hest"
      ∧ c8Array1.registers[r'.index]? = some r' :=
  C8_get_register_after_append.1 c8Array0 "hest" "r" "d" c8Array1
    ⟨"hest", 0, "r", "d"⟩
    (Reachable.init "arr" 0 3 "d" none c8Array0 rfl) rfl

/-- Modelled from the spec: `register_field_type.py` (class EnumType) is
not in src.  Per the spec data model an Enumeration is a non-empty ordered
list of distinct integer-valued members, each a (label, declared value)
pair. -/
structure PyEnum where
  members : List (String × Int)
deriving DecidableEq

/-- Ceiling of the base-2 logarithm, computed with explicit fuel;
ceilLog2Fuel fuel n equals ceil(log2 n) for 1 <= n <= fuel. -/
def ceilLog2Fuel : Nat → Nat → Nat
  | 0, _ => 0
  | fuel + 1, n => if n ≤ 1 then 0 else ceilLog2Fuel fuel ((n + 1) / 2) + 1

/-- Modelled from the spec: enum_bit_width of register_field_type.py is
not in src; per the spec the bit width of an Enumeration is
ceil(log2(member_count)), with a minimum of 1. -/
def enum_bit_width (e : PyEnum) : Nat :=
  max 1 (ceilLog2Fuel e.members.length e.members.length)

/-- Modelled from the spec: EnumType.convert_to_unsigned_binary of
register_field_type.py is not in src; per the spec the encoding of a
member is its 0-based ordinal position in insertion order, and a value
that is not a member of the enumeration fails with RangeError.  For a
sequential enumeration the declared values equal the ordinal positions by
construction, so the two spec branches coincide. -/
def convert_to_unsigned_binary (e : PyEnum) (bit_width : Nat)
    (value : Int) : Except String Nat :=
  match e.members.findIdx? (fun m => m.2 == value) with
  | some i => Except.ok i
  | none => Except.error "value is not a member of the enumeration"

/-- Modelled from the spec: EnumType.convert_from_unsigned_binary of
register_field_type.py is not in src; per the spec decoding an unsigned
code returns the member at that ordinal position and fails with
RangeError when no member matches. -/
def convert_from_unsigned_binary (e : PyEnum) (bit_width : Nat)
    (unsigned_binary : Nat) : Except String Int :=
  match e.members[unsigned_binary]? with
  | some m => Except.ok m.2
  | none => Except.error "Unsigned value does not match any enum member"

/-- The non-sequential four-member enumeration of the spec's concrete
scenario 3 and of test_enum.py: values 2, 3, 6, 12. -/
def exampleEnum : PyEnum :=
  ⟨[("A", 2), ("B", 3), ("C", 6), ("D", 12)]⟩

/-- C6: for the four-member non-sequential enumeration with values
2, 3, 6, 12 the computed bit width is 2; every member encodes to its
0-based ordinal position, in particular the member with value 12 encodes
to 3; and decoding the unsigned code 4 fails. -/
theorem C6_enum_scenario :
    enum_bit_width exampleEnum = 2
    ∧ convert_to_unsigned_binary exampleEnum 2 2 = Except.ok 0
    ∧ convert_to_unsigned_binary exampleEnum 2 3 = Except.ok 1
    ∧ convert_to_unsigned_binary exampleEnum 2 6 = Except.ok 2
    ∧ convert_to_unsigned_binary exampleEnum 2 12 = Except.ok 3
    ∧ convert_from_unsigned_binary exampleEnum 2 4
        = Except.error "Unsigned value does not match any enum member" :=
  ⟨rfl, rfl, rfl, rfl, rfl, rfl⟩

/-- Embeds SequentialEnum.__new__ of src/hdl_registers/enum.py: each
newly declared member receives the current number of already-created
members as its integer value. -/
def sequentialEnumStep (members : List (String × Int)) (label : String) :
    List (String × Int) :=
  members ++ [(label, (members.length : Int))]

/-- A class declaration deriving from SequentialEnum: the members are
created one by one in declaration order, each by sequentialEnumStep. -/
def sequentialEnum (labels : List String) : PyEnum :=
  ⟨labels.foldl sequentialEnumStep []⟩

/-- Folding sequentialEnumStep preserves the invariant that the member at
position j has value j. -/
lemma sequentialEnum_foldl_inv (labels : List String) :
    ∀ (init : List (String × Int)),
      (∀ (j : Nat) (m : String × Int), init[j]? = some m → m.2 = j) →
      ∀ (j : Nat) (m : String × Int),
        (labels.foldl sequentialEnumStep init)[j]? = some m → m.2 = j := by
  induction labels with
  | nil => exact fun init h => h
  | cons l rest ih =>
    intro init h j m hm
    rw [List.foldl_cons] at hm
    refine ih (sequentialEnumStep init l) ?_ j m hm
    intro j' m' hm'
    unfold sequentialEnumStep at hm'
    rcases Nat.lt_or_ge j' init.length with hlt | hge
    · rw [List.getElem?_append_left hlt] at hm'
      exact h j' m' hm'
    · have hb : j' < init.length + 1 := by
        obtain ⟨hb', -⟩ := List.getElem?_eq_some_iff.mp hm'
        simpa using hb'
      have hj : j' = init.length := by omega
      subst hj
      rw [List.getElem?_concat_length] at hm'
      injection hm' with hm'
      subst hm'
      rfl

/-- Folding sequentialEnumStep adds one member per label. -/
lemma sequentialEnum_foldl_length (labels : List String) :
    ∀ init : List (String × Int),
      (labels.foldl sequentialEnumStep init).length
        = init.length + labels.length := by
  induction labels with
  | nil => intro init; simp
  | cons l rest ih =>
    intro init
    rw [List.foldl_cons, ih]
    have hstep : (sequentialEnumStep init l).length = init.length + 1 := by
      simp [sequentialEnumStep]
    rw [hstep, List.length_cons]
    omega

/-- C7: a SequentialEnum declaration with n members yields members whose
declared values are exactly 0, 1, ..., n-1 in declaration order: the
member at 0-based position i has integer value i. -/
theorem C7_sequential_enum_values :
    ∀ labels : List String,
      (sequentialEnum labels).members.length = labels.length
      ∧ ∀ (i : Nat) (m : String × Int),
          (sequentialEnum labels).members[i]? = some m → m.2 = i := by
  intro labels
  constructor
  · have h := sequentialEnum_foldl_length labels []
    simpa [sequentialEnum] using h
  · exact sequentialEnum_foldl_inv labels [] (by intro j m hm; simp at hm)

/-- Witness for C7: the four-member sequential enumeration of
test_enum.py, looked up at position 2. -/
theorem C7_witness :
    (sequentialEnum ["A", "B", "C", "D"]).members[2]?
      = some ("C", (2 : Int))
    ∧ ((("C" : String), (2 : Int)).2 = (2 : Nat)) :=
  ⟨by decide,
   (C7_sequential_enum_values ["A", "B", "C", "D"]).2 2 ("C", 2)
     (by decide)⟩

/-- LSB-first binary digits of a natural number, with explicit fuel; for
fuel >= n this is the full binary digit list, empty for zero. -/
def binDigitsFuel : Nat → Nat → List Nat
  | _, 0 => []
  | 0, _ => []
  | fuel + 1, n => n % 2 :: binDigitsFuel fuel (n / 2)

/-- LSB-first binary digits of a natural number. -/
def binDigits (n : Nat) : List Nat := binDigitsFuel n n

/-- Numeric value of an LSB-first binary digit list. -/
def ofBinDigits : List Nat → Nat
  | [] => 0
  | d :: ds => d + 2 * ofBinDigits ds

/-- With sufficient fuel, binDigitsFuel is a faithful binary
representation. -/
lemma binDigitsFuel_sound :
    ∀ (fuel n : Nat), n ≤ fuel →
      ofBinDigits (binDigitsFuel fuel n) = n := by
  intro fuel
  induction fuel with
  | zero =>
    intro n hn
    have : n = 0 := Nat.le_zero.mp hn
    subst this
    rfl
  | succ f ih =>
    intro n hn
    match n with
    | 0 => rfl
    | n + 1 =>
      show ofBinDigits ((n + 1) % 2 :: binDigitsFuel f ((n + 1) / 2))
        = n + 1
      rw [ofBinDigits, ih ((n + 1) / 2) (by omega)]
      omega

/-- All entries produced by binDigitsFuel are binary digits. -/
lemma binDigitsFuel_lt_two :
    ∀ (fuel n : Nat), ∀ d ∈ binDigitsFuel fuel n, d < 2 := by
  intro fuel
  induction fuel with
  | zero =>
    intro n d hd
    match n with
    | 0 => cases hd
    | n + 1 => cases hd
  | succ f ih =>
    intro n d hd
    match n with
    | 0 => cases hd
    | n + 1 =>
      rcases List.mem_cons.mp hd with h | h
      · subst h
        exact Nat.mod_lt _ (by omega)
      · exact ih ((n + 1) / 2) d h

/-- A number at least 2^w has more than w binary digits. -/
lemma binDigitsFuel_length :
    ∀ (fuel n w : Nat), n ≤ fuel → 2 ^ w ≤ n →
      w < (binDigitsFuel fuel n).length := by
  intro fuel
  induction fuel with
  | zero =>
    intro n w hn hw
    have h1 : 1 ≤ 2 ^ w := Nat.one_le_two_pow
    omega
  | succ f ih =>
    intro n w hn hw
    have h1 : 1 ≤ 2 ^ w := Nat.one_le_two_pow
    match n, hn, hw with
    | 0, _, hw => omega
    | n + 1, hn, hw =>
      show w < (List.cons ((n + 1) % 2) (binDigitsFuel f ((n + 1) / 2))).length
      rw [List.length_cons]
      match w with
      | 0 => omega
      | w + 1 =>
        have hdiv : 2 ^ w ≤ (n + 1) / 2 := by
          rw [Nat.le_div_iff_mul_le (by omega)]
          calc 2 ^ w * 2 = 2 ^ (w + 1) := (pow_succ 2 w).symm
            _ ≤ n + 1 := hw
        have hfu : (n + 1) / 2 ≤ f := by omega
        have := ih ((n + 1) / 2) w hfu hdiv
        omega

/-- Character rendering of a single binary digit. -/
def bitChar (d : Nat) : Char := if d = 1 then '1' else '0'

/-- The Python b-format of a nonnegative integer without padding: binary
digits most significant first, the single digit 0 for zero. -/
def natBinChars (v : Nat) : List Char :=
  if v = 0 then ['0'] else ((binDigits v).map bitChar).reverse

/-- The zero fill of a Python format specification 0Nb: the digit string
is left padded with character zeros up to the requested width. -/
def padZeros (width : Nat) (s : List Char) : List Char :=
  List.replicate (width - s.length) '0' ++ s

/-- Embeds the f-string of EnumField.__init__ in src/hdl_registers/enum.py
that renders default_value with format specification 0Nb where N is the
field width: the binary rendering of the integer value, zero padded to the
width; a negative value carries a leading minus sign counted inside the
padding width. -/
def pyFormatBin (width : Nat) (v : Int) : List Char :=
  if v < 0 then '-' :: padZeros (width - 1) (natBinChars v.natAbs)
  else padZeros width (natBinChars v.toNat)

/-- Value of a most-significant-first binary digit character list, as
computed by Python int(s, 2) on an unsigned digit string. -/
def binCharsVal (cs : List Char) : Nat :=
  cs.foldl (fun acc c => 2 * acc + (if c = '1' then 1 else 0)) 0

/-- Embeds Python int(s, 2) on a string that is an optional minus sign
followed by binary digits. -/
def intOfBinChars (cs : List Char) : Int :=
  if cs.headD '0' = '-' then -(binCharsVal cs.tail : Int)
  else (binCharsVal cs : Int)

/-- Leading character zeros contribute nothing to the parsed value. -/
lemma foldl_zero_replicate (k : Nat) :
    (List.replicate k '0').foldl
      (fun acc c => 2 * acc + (if c = '1' then 1 else 0)) 0 = 0 := by
  induction k with
  | zero => rfl
  | succ n ih => simpa [List.replicate_succ] using ih

/-- Parsing ignores zero padding. -/
lemma binCharsVal_padZeros (w : Nat) (s : List Char) :
    binCharsVal (padZeros w s) = binCharsVal s := by
  rw [binCharsVal, padZeros, List.foldl_append,
    foldl_zero_replicate (w - s.length)]
  rfl

/-- Folding the parser over rendered binary digits recovers the digit
list's value. -/
lemma foldr_bits (l : List Nat) (h : ∀ d ∈ l, d < 2) :
    l.foldr (fun d acc => 2 * acc + (if bitChar d = '1' then 1 else 0)) 0
      = ofBinDigits l := by
  induction l with
  | nil => rfl
  | cons d ds ih =>
    have hd : d < 2 := h d (List.mem_cons_self d ds)
    have ihds := ih (fun x hx => h x (List.mem_cons_of_mem d hx))
    rw [List.foldr_cons, ihds, ofBinDigits]
    interval_cases d <;> simp [bitChar] <;> omega

/-- Parsing the unpadded rendering of a natural number recovers it. -/
lemma binCharsVal_natBinChars (n : Nat) :
    binCharsVal (natBinChars n) = n := by
  by_cases hn : n = 0
  · subst hn
    rfl
  · rw [natBinChars, if_neg hn, binCharsVal, List.foldl_reverse,
      List.foldr_map]
    rw [foldr_bits (binDigits n) (binDigitsFuel_lt_two n n)]
    exact binDigitsFuel_sound n n le_rfl

/-- Every character of the unpadded rendering is a binary digit. -/
lemma natBinChars_mem (n : Nat) :
    ∀ c ∈ natBinChars n, c = '0' ∨ c = '1' := by
  intro c hc
  unfold natBinChars at hc
  by_cases hn : n = 0
  · rw [if_pos hn] at hc
    simp at hc
    exact Or.inl hc
  · rw [if_neg hn] at hc
    rw [List.mem_reverse] at hc
    obtain ⟨d, -, hd⟩ := List.mem_map.mp hc
    subst hd
    unfold bitChar
    by_cases h1 : d = 1
    · rw [if_pos h1]
      exact Or.inr rfl
    · rw [if_neg h1]
      exact Or.inl rfl

/-- Every character of the padded rendering is a binary digit. -/
lemma padZeros_natBinChars_mem (w n : Nat) :
    ∀ c ∈ padZeros w (natBinChars n), c = '0' ∨ c = '1' := by
  intro c hc
  unfold padZeros at hc
  rcases List.mem_append.mp hc with h | h
  · exact Or.inl (List.eq_of_mem_replicate h)
  · exact natBinChars_mem n c h

/-- The padded rendering of a nonnegative value never starts with a
minus sign. -/
lemma padZeros_head_ne (w n : Nat) :
    (padZeros w (natBinChars n)).headD '0' ≠ '-' := by
  cases h : padZeros w (natBinChars n) with
  | nil => decide
  | cons c rest =>
    have hc : c ∈ padZeros w (natBinChars n) := by
      rw [h]
      exact List.mem_cons_self c rest
    have := padZeros_natBinChars_mem w n c hc
    simp only [List.headD_cons]
    rcases this with h0 | h0
    · rw [h0]
      decide
    · rw [h0]
      decide

/-- Python int(s, 2) inverts the Python 0Nb format: parsing the rendered
default value recovers the integer, for any width and any sign. -/
lemma intOfBinChars_pyFormatBin (w : Nat) (v : Int) :
    intOfBinChars (pyFormatBin w v) = v := by
  unfold pyFormatBin
  split
  · rename_i hv
    rw [intOfBinChars]
    have hhead : (('-' :: padZeros (w - 1) (natBinChars v.natAbs)).headD '0')
        = '-' := rfl
    rw [if_pos hhead, List.tail_cons, binCharsVal_padZeros,
      binCharsVal_natBinChars]
    omega
  · rename_i hv
    rw [intOfBinChars, if_neg (padZeros_head_ne _ _), binCharsVal_padZeros,
      binCharsVal_natBinChars]
    omega

/-- When the value needs more than the requested width, the rendered
string is strictly longer than the width. -/
lemma pyFormatBin_length (w : Nat) (v : Int) (h : (2 : Int) ^ w ≤ v) :
    w < (pyFormatBin w v).length := by
  have hpow : (0 : Int) < 2 ^ w := by positivity
  have hv : ¬ v < 0 := by omega
  have hn : 2 ^ w ≤ v.toNat := by
    have h2 : ((2 ^ w : Nat) : Int) ≤ v := by push_cast; exact h
    omega
  have hne : v.toNat ≠ 0 := by
    have h1 : 1 ≤ 2 ^ w := Nat.one_le_two_pow
    omega
  have hlen : w < (natBinChars v.toNat).length := by
    rw [natBinChars, if_neg hne, List.length_reverse, List.length_map]
    exact binDigitsFuel_length v.toNat v.toNat w le_rfl hn
  rw [pyFormatBin, if_neg hv, padZeros, List.length_append,
    List.length_replicate]
  omega

/-- Modelled from the spec: bit_vector.py (class BitVector) is not in
src; per the spec a Field stores the name, base index, description, width
and default value handed to its constructor, unchanged. -/
structure EnumField where
  name : String
  base_index : Nat
  description : String
  width : Nat
  default_value : List Char
deriving DecidableEq

/-- Embeds EnumField.__init__ of src/hdl_registers/enum.py: the width is
enum_bit_width(enum) and the stored default value is the f-string
rendering of the member's integer value with format specification 0Nb,
N being the width. -/
def EnumField.init (name : String) (base_index : Nat)
    (description : String) (enum : PyEnum) (default_value : Int) :
    EnumField :=
  let width := enum_bit_width enum
  ⟨name, base_index, description, width, pyFormatBin width default_value⟩

/-- C10: the stored default_value of an EnumField is the binary rendering
of the member's declared integer value zero padded to the enumeration's
bit width, so parsing it base 2 recovers the declared value; for the
non-sequential example enumeration this differs from the member's ordinal
encoding (the member with declared value 2 sits at ordinal 0, stores
char 1 then char 0, not two char 0); and when the value is at least
2 to the width the stored string is longer than the field's width. -/
theorem C10_enum_field_default_value :
    (∀ (nm : String) (bi : Nat) (ds : String) (e : PyEnum) (v : Int),
      (∃ lbl, (lbl, v) ∈ e.members) →
      (EnumField.init nm bi ds e v).default_value
          = pyFormatBin (enum_bit_width e) v
      ∧ intOfBinChars (EnumField.init nm bi ds e v).default_value = v
      ∧ ((2 : Int) ^ enum_bit_width e ≤ v →
          enum_bit_width e
            < (EnumField.init nm bi ds e v).default_value.length))
    ∧ (EnumField.init "a" 2 "b" exampleEnum 2).default_value = ['1', '0']
    ∧ convert_to_unsigned_binary exampleEnum 2 2 = Except.ok 0
    ∧ pyFormatBin (enum_bit_width exampleEnum) 0 = ['0', '0']
    ∧ (['1', '0'] : List Char) ≠ ['0', '0'] := by
  refine ⟨?_, by decide, rfl, by decide, by decide⟩
  intro nm bi ds e v _
  exact ⟨rfl, intOfBinChars_pyFormatBin _ v,
    fun h => pyFormatBin_length _ v h⟩

/-- Witness for C10: the member with declared value 12 of the example
enumeration, whose value exceeds the 2-bit width. -/
theorem C10_witness :
    intOfBinChars (EnumField.init "a" 2 "b" exampleEnum 12).default_value
        = 12
    ∧ enum_bit_width exampleEnum
        < (EnumField.init "a" 2 "b" exampleEnum 12).default_value.length := by
  have h := C10_enum_field_default_value.1 "a" 2 "b" exampleEnum 12
    ⟨"D", by decide⟩
  exact ⟨h.2.1, h.2.2 (by decide)⟩
